import Mathlib

/-!
Shallow embedding of the devcaders backend client (`src/client.rs`).

The client turns one duplex byte stream into a multiplexed request/response
channel: a writer task dequeues `(body, callback)` pairs from an mpsc queue,
allocates a `u32` request id (skipping ids still pending, wrapping on
overflow), writes the frame and registers the callback in a shared
`HashMap<u32, RequestSender>`; a reader task parses inbound lines, removes
the matching entry and completes it.  `send` awaits a oneshot callback and
maps the three failure surfaces into `RequestError`.
-/

namespace Devcaders

/-- Request bodies are an opaque, externally defined payload
(`devcade_onboard_types::RequestBody`); the client never inspects them. -/
abbrev RequestBody := Nat

/-- Response bodies (`devcade_onboard_types::ResponseBody`): the client only
distinguishes the error variant `ResponseBody::Err(String)` from every other
variant, which we collapse into one opaque payload constructor. -/
inductive ResponseBody where
  | err (msg : String)
  | payload (v : Nat)
deriving DecidableEq

/-- Opaque `std::io::Error`, identified by its message for the model. -/
abbrev IoErr := String

/-- The error enum `RequestError` of `src/client.rs`. -/
inductive RequestError where
  | ioError (e : IoErr)
  | responseError (msg : String)
  | unexpectedResponse (body : ResponseBody)
  | channelClosed
deriving DecidableEq

deriving instance DecidableEq for Except

/-- A completion handle (`oneshot::Sender<Result<ResponseBody, RequestError>>`),
identified by an abstract id. -/
abbrev Handle := Nat

/-- The pending-request table `HashMap<u32, RequestSender>`, embedded as an
association list from request id to completion handle. -/
abbrev Table := List (Nat × Handle)

/-- A completion attempt: which handle was resolved and with which result. -/
abbrev Completion := Handle × Except RequestError ResponseBody

/-- First value stored under key `k`, mirroring `HashMap` lookup (keys are
unique in every reachable table). -/
def lookup : Table → Nat → Option Handle
  | [], _ => none
  | (k, v) :: t, i => if k = i then some v else lookup t i

/-- `HashMap::contains_key`. -/
def containsKey (t : Table) (k : Nat) : Bool :=
  (lookup t k).isSome

/-- `HashMap::remove`: drop the (unique) entry stored under `k`. -/
def removeKey : Table → Nat → Table
  | [], _ => []
  | (k, v) :: t, i => if k = i then t else (k, v) :: removeKey t i

/-- `HashMap::insert`: store `h` under `k`, replacing any previous entry. -/
def insertEntry (t : Table) (k : Nat) (h : Handle) : Table :=
  (k, h) :: removeKey t k

/-- Keys of the table are pairwise distinct. -/
abbrev NodupKeys (t : Table) : Prop :=
  (t.map Prod.fst).Nodup

/-- Handles of the table are pairwise distinct (each oneshot sender is a
distinct single-use object). -/
abbrev NodupHandles (t : Table) : Prop :=
  (t.map Prod.snd).Nodup

/-! ## Reader loop -/

/-- A parsed inbound frame (`Response { request_id, body }`). -/
structure Response where
  request_id : Nat
  body : ResponseBody
deriving DecidableEq

/-- One inbound line, as seen after `serde_json::from_str`: either it parses
to a `Response` or it is malformed. -/
inductive Line where
  | malformed (raw : String)
  | resp (r : Response)
deriving DecidableEq

/-- The match arms completing a handle in the reader loop:
`ResponseBody::Err(err) => Err(RequestError::ResponseError(err)), body => Ok(body)`. -/
def outcomeOf : ResponseBody → Except RequestError ResponseBody
  | .err e => .error (.responseError e)
  | body => .ok body

/-- One iteration of the reader loop body on a single line: a malformed line
is logged and skipped; a response whose id is absent from the table is logged
and skipped; otherwise the entry is removed and its handle completed. -/
def readerStep (t : Table) : Line → Table × Option Completion
  | .malformed _ => (t, none)
  | .resp r =>
    match lookup t r.request_id with
    | none => (t, none)
    | some h => (removeKey t r.request_id, some (h, outcomeOf r.body))

/-- The reader loop over a list of successfully read lines, returning the
final table and the completions attempted, in order. -/
def readerRun (t : Table) : List Line → Table × List Completion
  | [] => (t, [])
  | line :: rest =>
    match readerStep t line with
    | (t', none) => readerRun t' rest
    | (t', some c) =>
      let out := readerRun t' rest
      (out.1, c :: out.2)

/-- First response body carried by a line with request id `i`. -/
def firstResponse : List Line → Nat → Option ResponseBody
  | [], _ => none
  | .malformed _ :: rest, i => firstResponse rest i
  | .resp r :: rest, i =>
    if r.request_id = i then some r.body else firstResponse rest i

/-- Results delivered to a given handle by a list of completions. -/
def deliveredTo (cs : List Completion) (h : Handle) :
    List (Except RequestError ResponseBody) :=
  (cs.filter (fun c => c.1 == h)).map Prod.snd

/-! ## Writer loop -/

/-- Modulus of the `u32` request-id counter. -/
def U32 : Nat := 4294967296

/-- `u32::wrapping_add(1)`. -/
def wrapAdd1 (n : Nat) : Nat :=
  (n + 1) % U32

/-- The id-allocation `while` loop:
`while listeners.contains_key(&request_id_counter) { request_id_counter = request_id_counter.wrapping_add(1) }`.
The fuel argument bounds the scan; with fuel `U32` the whole `u32` range is
visited, and `none` models the loop never terminating (every id pending). -/
def allocId (t : Table) : Nat → Nat → Option Nat
  | _, 0 => none
  | c, fuel + 1 =>
    if containsKey t c then allocId t (wrapAdd1 c) fuel else some c

/-- Outcome of `connection_writer.write_all(&frame).await` for one frame. -/
inductive WriteOutcome where
  | ok
  | fail (e : IoErr)
deriving DecidableEq

/-- State owned by the writer task: the shared listener table and the
`request_id_counter` local. -/
structure WriterState where
  table : Table
  counter : Nat
deriving DecidableEq

/-- Observable result of running the writer loop: final state, completions
the writer itself resolved (write failures), frames successfully written,
and whether the loop is still servicing the queue (`false` after `return`). -/
structure WriterOut where
  state : WriterState
  completions : List Completion
  written : List (Nat × RequestBody)
  alive : Bool

/-- The writer loop over the dequeued requests, each paired with the outcome
its write attempt would have.  For each `(body, callback)`: allocate an id
(skipping pending ids, wrapping on overflow; the counter is left at the
allocated value, exactly as in the source), build the frame, write it; on
write failure complete that callback with the I/O error and `return`; on
success insert `(id, callback)` into the table and continue. -/
def writerRun (s : WriterState) :
    List ((RequestBody × Handle) × WriteOutcome) → WriterOut
  | [] => ⟨s, [], [], true⟩
  | ((body, cb), w) :: rest =>
    match allocId s.table s.counter U32 with
    | none => ⟨s, [], [], true⟩
    | some id =>
      match w with
      | .fail e => ⟨s, [(cb, .error (.ioError e))], [], false⟩
      | .ok =>
        let out := writerRun ⟨insertEntry s.table id cb, id⟩ rest
        ⟨out.state, out.completions, (id, body) :: out.written, out.alive⟩

/-! ## The `send` entry point -/

/-- Outcome of `connection.requests_tx.send((body, tx)).await`: `closed`
models `SendError` (the writer task has dropped the receiver). -/
inductive EnqueueOutcome where
  | ok
  | closed
deriving DecidableEq

/-- Outcome of `rx.await`: either the loops resolved the oneshot with a
result, or the sender was dropped unresolved (`RecvError`). -/
inductive RecvOutcome where
  | resolved (r : Except RequestError ResponseBody)
  | dropped
deriving DecidableEq

/-- `BackendClient::send`, as a function of the outcomes of its three await
points: `get_connection` (an `io::Error` converts to `IoError` via `?`),
the mpsc enqueue (`map_err(|_| ChannelClosed)?`), and the oneshot await
(`map_err(|_| ChannelClosed)`, then `Ok(Ok) => Ok, Ok(Err) | Err => Err`). -/
def send (conn : Except IoErr Unit) (enq : EnqueueOutcome) (res : RecvOutcome) :
    Except RequestError ResponseBody :=
  match conn with
  | .error e => .error (.ioError e)
  | .ok _ =>
    match enq with
    | .closed => .error .channelClosed
    | .ok =>
      match res with
      | .dropped => .error .channelClosed
      | .resolved (.ok r) => .ok r
      | .resolved (.error err) => .error err

/-! ## Connection cell -/

/-- Modelled from the spec: the single-flight connection cell of §4.1.  The
implementation delegates to `tokio::sync::OnceCell::get_or_try_init`, whose
code is not part of this repository; the spec describes its contract as
"establishment runs at most once, concurrent callers await the same in-flight
attempt and receive the same result, failures are returned and leave the cell
unset so a later call may retry".  Connections are identified by the abstract
id of the published work-queue sender. -/
inductive CellPhase where
  | unset
  | initializing (waiters : List Nat)
  | ready (conn : Nat)
deriving DecidableEq

/-- Modelled from the spec: observable history of the connection cell — its
phase, the results delivered to callers, and how many establishment attempts
have been started. -/
structure CellTrace where
  phase : CellPhase
  delivered : List (Nat × Except IoErr Nat)
  started : Nat
deriving DecidableEq

/-- Modelled from the spec: events at the cell — a caller invoking
`get_or_try_init` (`arrive`) and the in-flight establishment attempt
resolving (`resolve`). -/
inductive CellEvent where
  | arrive (caller : Nat)
  | resolve (o : Except IoErr Nat)
deriving DecidableEq

/-- Modelled from the spec: one transition of the connection cell.  An
arrival on an unset cell starts establishment; an arrival during an in-flight
attempt joins its waiters (no new attempt); an arrival on a ready cell is
served the published connection immediately.  A resolution delivers its
outcome to every waiter of the attempt; success publishes the connection
permanently, failure leaves the cell unset. -/
def cellStep (s : CellTrace) : CellEvent → CellTrace
  | .arrive c =>
    match s.phase with
    | .unset => { s with phase := .initializing [c], started := s.started + 1 }
    | .initializing ws => { s with phase := .initializing (c :: ws) }
    | .ready conn => { s with delivered := (c, .ok conn) :: s.delivered }
  | .resolve o =>
    match s.phase with
    | .initializing ws =>
      { phase := match o with
          | .ok conn => .ready conn
          | .error _ => .unset
        delivered := ws.map (fun w => (w, o)) ++ s.delivered
        started := s.started }
    | _ => s

/-- Modelled from the spec: a fresh client's cell — unset, nothing delivered,
no establishment attempt started. -/
def cellInit : CellTrace :=
  ⟨.unset, [], 0⟩

/-- Modelled from the spec: the cell evolving under a sequence of events. -/
def cellRun (s : CellTrace) (evs : List CellEvent) : CellTrace :=
  evs.foldl cellStep s

/-! ## Association-table lemmas -/

theorem lookup_eq_none_of_not_mem {t : Table} {i : Nat} :
    i ∉ t.map Prod.fst → lookup t i = none := by
  induction t with
  | nil => intro _; rfl
  | cons p t ih =>
    obtain ⟨k, v⟩ := p
    intro hmem
    simp only [List.map_cons, List.mem_cons, not_or] at hmem
    simp [lookup, Ne.symm hmem.1, ih hmem.2]

theorem lookup_mem {t : Table} {i : Nat} {h : Handle} :
    lookup t i = some h → (i, h) ∈ t := by
  induction t with
  | nil => intro hl; simp [lookup] at hl
  | cons p t ih =>
    obtain ⟨k, v⟩ := p
    intro hl
    by_cases hk : k = i
    · subst hk
      simp [lookup] at hl
      subst hl
      exact List.mem_cons_self _ _
    · simp [lookup, hk] at hl
      exact List.mem_cons_of_mem _ (ih hl)

theorem containsKey_iff_mem {t : Table} {k : Nat} :
    containsKey t k = true ↔ k ∈ t.map Prod.fst := by
  induction t with
  | nil => simp [containsKey, lookup]
  | cons p t ih =>
    obtain ⟨k', v⟩ := p
    by_cases hk : k' = k
    · subst hk; simp [containsKey, lookup]
    · have hk2 : ¬(k = k') := fun h => hk h.symm
      simp only [containsKey, lookup, if_neg hk, List.map_cons, List.mem_cons]
      simp only [containsKey] at ih
      simp [ih, hk2]

theorem removeKey_of_not_contains {t : Table} {k : Nat} :
    containsKey t k = false → removeKey t k = t := by
  induction t with
  | nil => intro _; rfl
  | cons p t ih =>
    obtain ⟨k', v⟩ := p
    intro h
    by_cases hk : k' = k
    · subst hk; simp [containsKey, lookup] at h
    · simp only [containsKey, lookup, if_neg hk] at h
      simp only [containsKey] at ih
      simp [removeKey, hk, ih h]

theorem removeKey_sublist (t : Table) (i : Nat) :
    List.Sublist (removeKey t i) t := by
  induction t with
  | nil => simp [removeKey]
  | cons p t ih =>
    obtain ⟨k, v⟩ := p
    by_cases hk : k = i
    · simpa [removeKey, hk] using List.Sublist.cons (k, v) (List.Sublist.refl t)
    · simpa [removeKey, hk] using List.Sublist.cons₂ (k, v) ih

theorem nodupKeys_removeKey {t : Table} {i : Nat} (h : NodupKeys t) :
    NodupKeys (removeKey t i) := by
  exact List.Nodup.sublist ((removeKey_sublist t i).map Prod.fst) h

theorem nodupHandles_removeKey {t : Table} {i : Nat} (h : NodupHandles t) :
    NodupHandles (removeKey t i) := by
  exact List.Nodup.sublist ((removeKey_sublist t i).map Prod.snd) h

theorem lookup_removeKey_self {t : Table} {i : Nat} :
    NodupKeys t → lookup (removeKey t i) i = none := by
  induction t with
  | nil => intro _; rfl
  | cons p t ih =>
    obtain ⟨k, v⟩ := p
    intro h
    simp only [NodupKeys, List.map_cons, List.nodup_cons] at h
    by_cases hk : k = i
    · subst hk
      simpa [removeKey] using lookup_eq_none_of_not_mem h.1
    · simp only [removeKey, if_neg hk, lookup]
      simp [hk, ih h.2]

theorem lookup_removeKey_ne {t : Table} {i j : Nat} (hij : j ≠ i) :
    lookup (removeKey t i) j = lookup t j := by
  induction t with
  | nil => rfl
  | cons p t ih =>
    obtain ⟨k, v⟩ := p
    by_cases hk : k = i
    · subst hk
      have hkj : ¬(k = j) := fun h => hij h.symm
      simp [removeKey, lookup, hkj]
    · by_cases hkj : k = j
      · subst hkj; simp [removeKey, hk, lookup]
      · simp [removeKey, hk, lookup, hkj, ih]

theorem not_mem_snd_removeKey {t : Table} {i : Nat} {h : Handle} :
    NodupHandles t → lookup t i = some h →
      h ∉ (removeKey t i).map Prod.snd := by
  induction t with
  | nil => intro _ hl; simp [lookup] at hl
  | cons p t ih =>
    obtain ⟨k, v⟩ := p
    intro hn hl
    simp only [NodupHandles, List.map_cons, List.nodup_cons] at hn
    by_cases hk : k = i
    · subst hk
      simp [lookup] at hl
      subst hl
      simpa [removeKey] using hn.1
    · simp only [lookup, if_neg hk] at hl
      have hmem : h ∈ t.map Prod.snd :=
        List.mem_map_of_mem Prod.snd (lookup_mem hl)
      simp only [removeKey, if_neg hk, List.map_cons, List.mem_cons, not_or]
      refine ⟨fun he => ?_, ih hn.2 hl⟩
      exact hn.1 (he ▸ hmem)

theorem lookup_handle_ne {t : Table} {i j : Nat} {h h' : Handle}
    (hn : NodupHandles t) (hi : lookup t i = some h)
    (hj : lookup t j = some h') (hij : i ≠ j) : h' ≠ h := by
  intro he
  subst he
  have h1 : lookup (removeKey t i) j = some h' := by
    rw [lookup_removeKey_ne (Ne.symm hij)]; exact hj
  have h3 : h' ∈ (removeKey t i).map Prod.snd :=
    List.mem_map_of_mem Prod.snd (lookup_mem h1)
  exact not_mem_snd_removeKey hn hi h3

/-! ## Reader-loop lemmas -/

theorem readerStep_malformed (t : Table) (raw : String) :
    readerStep t (.malformed raw) = (t, none) := rfl

theorem readerStep_resp_none {t : Table} {r : Response}
    (hl : lookup t r.request_id = none) :
    readerStep t (.resp r) = (t, none) := by
  simp [readerStep, hl]

theorem readerStep_resp_some {t : Table} {r : Response} {h : Handle}
    (hl : lookup t r.request_id = some h) :
    readerStep t (.resp r) =
      (removeKey t r.request_id, some (h, outcomeOf r.body)) := by
  simp [readerStep, hl]

theorem readerRun_cons_none {t t' : Table} {line : Line} {rest : List Line}
    (h : readerStep t line = (t', none)) :
    readerRun t (line :: rest) = readerRun t' rest := by
  simp [readerRun, h]

theorem readerRun_cons_some {t t' : Table} {line : Line} {rest : List Line}
    {c : Completion} (h : readerStep t line = (t', some c)) :
    readerRun t (line :: rest) =
      ((readerRun t' rest).1, c :: (readerRun t' rest).2) := by
  simp [readerRun, h]

theorem completion_handle_mem {ls : List Line} :
    ∀ {t : Table} {c : Completion},
      c ∈ (readerRun t ls).2 → c.1 ∈ t.map Prod.snd := by
  induction ls with
  | nil => intro t c hc; simp [readerRun] at hc
  | cons line rest ih =>
    intro t c hc
    cases line with
    | malformed raw =>
      rw [readerRun_cons_none (readerStep_malformed t raw)] at hc
      exact ih hc
    | resp r =>
      cases hl : lookup t r.request_id with
      | none =>
        rw [readerRun_cons_none (readerStep_resp_none hl)] at hc
        exact ih hc
      | some h =>
        rw [readerRun_cons_some (readerStep_resp_some hl)] at hc
        simp only [List.mem_cons] at hc
        cases hc with
        | inl he =>
          subst he
          exact List.mem_map_of_mem Prod.snd (lookup_mem hl)
        | inr hmem =>
          exact ((removeKey_sublist t r.request_id).map Prod.snd).subset
            (ih hmem)

theorem deliveredTo_eq_nil {cs : List Completion} {h : Handle}
    (hall : ∀ c ∈ cs, c.1 ≠ h) : deliveredTo cs h = [] := by
  induction cs with
  | nil => rfl
  | cons c cs ih =>
    have hc : (c.1 == h) = false := by
      simpa using hall c (List.mem_cons_self c cs)
    have htail : deliveredTo cs h = [] :=
      ih fun c' hc' => hall c' (List.mem_cons_of_mem _ hc')
    simpa [deliveredTo, List.filter_cons, hc] using htail

theorem deliveredTo_run_nil {ls : List Line} {t : Table} {h : Handle}
    (hmem : h ∉ t.map Prod.snd) : deliveredTo (readerRun t ls).2 h = [] := by
  refine deliveredTo_eq_nil fun c hc he => ?_
  exact hmem (he ▸ completion_handle_mem hc)

theorem deliveredTo_cons_self {cs : List Completion} {h : Handle}
    {r : Except RequestError ResponseBody} :
    deliveredTo ((h, r) :: cs) h = r :: deliveredTo cs h := by
  simp [deliveredTo]

theorem deliveredTo_cons_ne {cs : List Completion} {h h' : Handle}
    {r : Except RequestError ResponseBody} (hne : h' ≠ h) :
    deliveredTo ((h', r) :: cs) h = deliveredTo cs h := by
  have hc : ((h', r).1 == h) = false := by simpa using hne
  simp [deliveredTo, List.filter_cons, hc]

/-- C1: for every interleaving of inbound lines, the completions the reader
loop delivers to the handle registered under identifier `i` are exactly the
outcome of the (first) response carrying identifier `i` — a caller receives
the payload correlated to its own request and never another caller's. -/
theorem reader_correlates_responses (ls : List Line) (t : Table) (i : Nat)
    (h : Handle) (hk : NodupKeys t) (hh : NodupHandles t)
    (hlook : lookup t i = some h) :
    deliveredTo (readerRun t ls).2 h =
      ((firstResponse ls i).map outcomeOf).toList := by
  induction ls generalizing t with
  | nil => simp [readerRun, firstResponse, deliveredTo]
  | cons line rest ih =>
    cases line with
    | malformed raw =>
      rw [readerRun_cons_none (readerStep_malformed t raw)]
      simpa [firstResponse] using ih t hk hh hlook
    | resp r =>
      by_cases hji : r.request_id = i
      · have hlk : lookup t r.request_id = some h := by rw [hji]; exact hlook
        rw [readerRun_cons_some (readerStep_resp_some hlk)]
        rw [deliveredTo_cons_self]
        have hnomem : h ∉ (removeKey t r.request_id).map Prod.snd := by
          rw [hji]; exact not_mem_snd_removeKey hh hlook
        rw [deliveredTo_run_nil hnomem]
        simp [firstResponse, hji]
      · cases hl : lookup t r.request_id with
        | none =>
          rw [readerRun_cons_none (readerStep_resp_none hl)]
          simpa [firstResponse, hji] using ih t hk hh hlook
        | some h' =>
          rw [readerRun_cons_some (readerStep_resp_some hl)]
          have hne : h' ≠ h := lookup_handle_ne hh hlook hl
            (fun he => hji he.symm)
          rw [deliveredTo_cons_ne hne]
          have hlook' : lookup (removeKey t r.request_id) i = some h := by
            rw [lookup_removeKey_ne (fun he => hji he.symm)]; exact hlook
          simpa [firstResponse, hji] using
            ih _ (nodupKeys_removeKey hk) (nodupHandles_removeKey hh) hlook'

/-- C7: a malformed inbound line is logged and dropped: the reader-loop
iteration leaves the table unchanged and completes nothing, and the run over
the remaining lines proceeds exactly as if the malformed line were absent. -/
theorem malformed_line_skipped (t : Table) (raw : String) (rest : List Line) :
    readerStep t (.malformed raw) = (t, none) ∧
    readerRun t (.malformed raw :: rest) = readerRun t rest := by
  exact ⟨rfl, readerRun_cons_none (readerStep_malformed t raw)⟩

/-- C8: a response whose identifier is absent from the pending table is
logged and dropped: the table is untouched, nothing is completed, the run
over the remaining lines is unchanged, and in particular any other in-flight
handle receives exactly what it would have received without the spurious
response. -/
theorem unmatched_response_skipped (t : Table) (i : Nat) (b : ResponseBody)
    (rest : List Line) (j : Nat) (h : Handle)
    (habsent : lookup t i = none) (hj : lookup t j = some h) :
    readerStep t (.resp ⟨i, b⟩) = (t, none) ∧
    readerRun t (.resp ⟨i, b⟩ :: rest) = readerRun t rest ∧
    deliveredTo (readerRun t (.resp ⟨i, b⟩ :: rest)).2 h =
      deliveredTo (readerRun t rest).2 h := by
  have hstep : readerStep t (.resp ⟨i, b⟩) = (t, none) :=
    readerStep_resp_none habsent
  have hrun : readerRun t (.resp ⟨i, b⟩ :: rest) = readerRun t rest :=
    readerRun_cons_none hstep
  exact ⟨hstep, hrun, by rw [hrun]⟩

/-! ## Writer-loop lemmas -/

theorem allocId_not_contains {t : Table} :
    ∀ fuel c {id : Nat}, allocId t c fuel = some id →
      containsKey t id = false := by
  intro fuel
  induction fuel with
  | zero => intro c id h; simp [allocId] at h
  | succ n ih =>
    intro c id h
    cases hc : containsKey t c with
    | true =>
      rw [allocId, hc, if_pos rfl] at h
      exact ih _ h
    | false =>
      rw [allocId, hc] at h
      simp at h
      exact h ▸ hc

theorem allocId_lt {t : Table} :
    ∀ fuel c {id : Nat}, c < U32 → allocId t c fuel = some id → id < U32 := by
  intro fuel
  induction fuel with
  | zero => intro c id _ h; simp [allocId] at h
  | succ n ih =>
    intro c id hc h
    cases hcc : containsKey t c with
    | true =>
      rw [allocId, hcc, if_pos rfl] at h
      refine ih _ ?_ h
      unfold wrapAdd1 U32
      omega
    | false =>
      rw [allocId, hcc] at h
      simp at h
      omega

theorem allocId_isSome_of_free {t : Table} :
    ∀ fuel c m, m < fuel → c < U32 →
      containsKey t ((c + m) % U32) = false → (allocId t c fuel).isSome := by
  intro fuel
  induction fuel with
  | zero => intro c m hm; omega
  | succ n ih =>
    intro c m hm hc hfree
    cases hcc : containsKey t c with
    | false => simp [allocId, hcc]
    | true =>
      rw [allocId, hcc, if_pos rfl]
      have hm0 : m ≠ 0 := by
        intro h0
        subst h0
        have : (c + 0) % U32 = c := by unfold U32 at *; omega
        rw [this, hcc] at hfree
        simp at hfree
      refine ih (wrapAdd1 c) (m - 1) (by omega) ?_ ?_
      · unfold wrapAdd1 U32; omega
      · have heq : (wrapAdd1 c + (m - 1)) % U32 = (c + m) % U32 := by
          unfold wrapAdd1 U32
          omega
        rw [heq]
        exact hfree

theorem exists_free_residue {t : Table} (c : Nat) (hc : c < U32)
    (hlen : t.length < U32) :
    ∃ m, m < U32 ∧ containsKey t ((c + m) % U32) = false := by
  by_contra hno
  push_neg at hno
  simp only [Bool.not_eq_false] at hno
  have hsub : ∀ r ∈ List.range U32, r ∈ t.map Prod.fst := by
    intro r hr
    rw [List.mem_range] at hr
    have hm : (c + ((r + U32 - c) % U32)) % U32 = r := by
      unfold U32 at *; omega
    have hcont := hno ((r + U32 - c) % U32) (by unfold U32 at *; omega)
    rw [hm] at hcont
    exact containsKey_iff_mem.mp hcont
  have hcard : U32 ≤ (t.map Prod.fst).length := by
    have h1 : (List.range U32).toFinset ⊆ (t.map Prod.fst).toFinset := by
      intro r hr
      rw [List.mem_toFinset] at hr ⊢
      exact hsub r hr
    calc U32 = (List.range U32).toFinset.card := by
          rw [List.toFinset_card_of_nodup (List.nodup_range U32),
            List.length_range]
      _ ≤ (t.map Prod.fst).toFinset.card := Finset.card_le_card h1
      _ ≤ (t.map Prod.fst).length := (t.map Prod.fst).toFinset_card_le
  rw [List.length_map] at hcard
  omega

theorem allocId_succeeds {t : Table} {c : Nat} (hc : c < U32)
    (hlen : t.length < U32) : ∃ id, allocId t c U32 = some id := by
  obtain ⟨m, hm, hfree⟩ := exists_free_residue c hc hlen
  exact Option.isSome_iff_exists.mp (allocId_isSome_of_free U32 c m hm hc hfree)

theorem insertEntry_fresh {t : Table} {k : Nat} {h : Handle}
    (hfree : containsKey t k = false) :
    insertEntry t k h = (k, h) :: t := by
  unfold insertEntry
  rw [removeKey_of_not_contains hfree]

theorem nodupKeys_insert_fresh {t : Table} {k : Nat} {h : Handle}
    (hfree : containsKey t k = false) (hk : NodupKeys t) :
    NodupKeys (insertEntry t k h) := by
  rw [insertEntry_fresh hfree]
  simp only [NodupKeys, List.map_cons, List.nodup_cons]
  refine ⟨fun hmem => ?_, hk⟩
  rw [containsKey_iff_mem.mpr hmem] at hfree
  simp at hfree

theorem writerRun_preserves_nodupKeys
    {q : List ((RequestBody × Handle) × WriteOutcome)} :
    ∀ s : WriterState, NodupKeys s.table →
      NodupKeys (writerRun s q).state.table := by
  induction q with
  | nil => intro s hs; exact hs
  | cons x rest ih =>
    intro s hs
    obtain ⟨⟨body, cb⟩, w⟩ := x
    cases ha : allocId s.table s.counter U32 with
    | none => simpa [writerRun, ha] using hs
    | some id =>
      cases w with
      | fail e => simpa [writerRun, ha] using hs
      | ok =>
        simp only [writerRun, ha]
        exact ih ⟨insertEntry s.table id cb, id⟩
          (nodupKeys_insert_fresh (allocId_not_contains _ _ ha) hs)

/-- C2: along any writer-loop run the pending table never holds two entries
with the same identifier — the allocator only ever hands out an id that is
not currently a key of the table, skipping pending ids (wrapping on
overflow) until a free one is found. -/
theorem writer_ids_unique (s : WriterState)
    (q : List ((RequestBody × Handle) × WriteOutcome)) (id : Nat)
    (hs : NodupKeys s.table) :
    NodupKeys (writerRun s q).state.table ∧
    (allocId s.table s.counter U32 = some id →
      containsKey s.table id = false) := by
  exact ⟨writerRun_preserves_nodupKeys s hs,
    fun ha => allocId_not_contains _ _ ha⟩

/-- C3: when the write of a frame fails, the writer loop completes exactly
that caller's handle with the I/O error and returns: the run over a queue
whose first failing entry is `((b, cb), fail e)` resolves only `cb` (with
`IoError e`), ends with the loop dead, and writes exactly the frames of the
successful prefix — nothing after the failure is ever written. -/
theorem write_failure_halts_writer (s : WriterState)
    (pre : List ((RequestBody × Handle) × WriteOutcome))
    (b : RequestBody) (cb : Handle) (e : IoErr)
    (rest : List ((RequestBody × Handle) × WriteOutcome))
    (hok : ∀ x ∈ pre, x.2 = WriteOutcome.ok)
    (hk : NodupKeys s.table) (hc : s.counter < U32)
    (hsize : s.table.length + pre.length < U32) :
    (writerRun s (pre ++ ((b, cb), .fail e) :: rest)).completions =
        [(cb, .error (.ioError e))] ∧
    (writerRun s (pre ++ ((b, cb), .fail e) :: rest)).alive = false ∧
    (writerRun s (pre ++ ((b, cb), .fail e) :: rest)).written =
        (writerRun s pre).written := by
  induction pre generalizing s with
  | nil =>
    have hlen0 : s.table.length < U32 := by simpa using hsize
    obtain ⟨id, ha⟩ := allocId_succeeds hc hlen0
    simp [writerRun, ha]
  | cons x pre ih =>
    obtain ⟨⟨body', cb'⟩, w⟩ := x
    have hw : w = WriteOutcome.ok := hok _ (List.mem_cons_self _ _)
    subst hw
    have hlen : s.table.length < U32 := by
      simp only [List.length_cons] at hsize
      omega
    obtain ⟨id, ha⟩ := allocId_succeeds hc hlen
    have hfree := allocId_not_contains _ _ ha
    have hid : id < U32 := allocId_lt _ _ hc ha
    have hsize' : (insertEntry s.table id cb').length + pre.length < U32 := by
      rw [insertEntry_fresh hfree]
      simp only [List.length_cons] at hsize ⊢
      omega
    have hrec := ih ⟨insertEntry s.table id cb', id⟩
      (fun x hx => hok x (List.mem_cons_of_mem _ hx))
      (nodupKeys_insert_fresh hfree hk) hid hsize'
    simp only [List.cons_append, writerRun, ha, List.append_eq]
    exact ⟨hrec.1, hrec.2.1, by rw [hrec.2.2]⟩

/-- C6 counterexample: a run in which the writer loop terminates because of
a fatal write failure while an entry (id 5) is pending. The loop ends dead,
yet the entry is still present in the table — the code never removes
pending entries on a write failure. -/
theorem write_failure_keeps_table_counterexample :
    (writerRun ⟨[(5, 77)], 0⟩ [((0, 3), .fail "boom")]).alive = false ∧
    containsKey
      (writerRun ⟨[(5, 77)], 0⟩ [((0, 3), .fail "boom")]).state.table 5 =
      true := by
  decide

/-- C6 amended: entries are added on successful write and removed on a
matching response; on a fatal write failure the writer loop terminates with
the table unchanged — the failing request's handle (never inserted) is
completed with the error, and entries already present remain pending. -/
theorem table_lifecycle_amended (s : WriterState) (b : RequestBody)
    (cb : Handle) (e : IoErr)
    (rest : List ((RequestBody × Handle) × WriteOutcome))
    (t : Table) (i : Nat) (h : Handle) (body : ResponseBody) (id : Nat)
    (hins : allocId s.table s.counter U32 = some id)
    (hrem : lookup t i = some h) :
    (writerRun s [((b, cb), .ok)]).state.table = insertEntry s.table id cb ∧
    (readerStep t (.resp ⟨i, body⟩)).1 = removeKey t i ∧
    (writerRun s (((b, cb), .fail e) :: rest)).state.table = s.table ∧
    (writerRun s (((b, cb), .fail e) :: rest)).completions =
      [(cb, .error (.ioError e))] := by
  refine ⟨?_, ?_, ?_, ?_⟩
  · simp [writerRun, hins]
  · simp [readerStep, hrem]
  · simp [writerRun, hins]
  · simp [writerRun, hins]

/-! ## Claims about `send` -/

/-- C4: when the reader loop matches a response to the registered handle it
completes it with the match on the body, and the awaiting `send` maps that
completion faithfully: an error payload `Err m` surfaces as
`ResponseError m` (never a success), and any other body is returned as the
success value. -/
theorem error_payload_mapping (t : Table) (i : Nat) (h : Handle)
    (b : ResponseBody) (hlook : lookup t i = some h) :
    (readerStep t (.resp ⟨i, b⟩)).2 = some (h, outcomeOf b) ∧
    (∀ m, b = .err m →
      send (.ok ()) .ok (.resolved (outcomeOf b)) =
        .error (.responseError m)) ∧
    ((∀ m, b ≠ .err m) →
      send (.ok ()) .ok (.resolved (outcomeOf b)) = .ok b) := by
  refine ⟨by simp [readerStep, hlook], ?_, ?_⟩
  · rintro m rfl
    rfl
  · intro hm
    cases b with
    | err m => exact absurd rfl (hm m)
    | payload v => rfl

/-- C9: once the internal plumbing is torn down, `send` surfaces the single
`ChannelClosed` error kind: both a closed outbound queue (the writer loop
terminated and dropped the receiver) and a completion handle dropped
unresolved (a loop died before resolving it) map to `ChannelClosed`. -/
theorem channel_closed_paths (enq : EnqueueOutcome) (res : RecvOutcome) :
    (enq = .closed → send (.ok ()) enq res = .error .channelClosed) ∧
    (res = .dropped → send (.ok ()) .ok res = .error .channelClosed) := by
  constructor
  · rintro rfl
    rfl
  · rintro rfl
    rfl

/-! ## Connection-cell lemmas -/

theorem cellStep_ready_stable {s : CellTrace} {conn : Nat}
    (h : s.phase = .ready conn) (e : CellEvent) :
    (cellStep s e).phase = .ready conn := by
  cases e with
  | arrive c => simp [cellStep, h]
  | resolve o => simp [cellStep, h]

theorem cellRun_ready_stable {conn : Nat} :
    ∀ (evs : List CellEvent) (s : CellTrace), s.phase = .ready conn →
      (cellRun s evs).phase = .ready conn := by
  intro evs
  induction evs with
  | nil => intro s h; exact h
  | cons e evs ih =>
    intro s h
    exact ih (cellStep s e) (cellStep_ready_stable h e)

/-- C5: single-flight connection establishment.  A caller arriving while an
attempt is in flight joins its waiters and starts no new attempt; every
waiter of an attempt is delivered that attempt's result; and once an attempt
has succeeded the published connection is permanent — after any further
events the cell still holds the same connection, and a new `send` is served
that same connection without starting another establishment. -/
theorem connection_single_flight (s : CellTrace) (c w conn : Nat)
    (ws : List Nat) (o : Except IoErr Nat) (more : List CellEvent) :
    (s.phase = .initializing ws →
      (cellStep s (.arrive c)).phase = .initializing (c :: ws) ∧
      (cellStep s (.arrive c)).started = s.started) ∧
    (s.phase = .initializing ws → w ∈ ws →
      (w, o) ∈ (cellStep s (.resolve o)).delivered) ∧
    (s.phase = .ready conn →
      (cellRun s more).phase = .ready conn ∧
      (cellStep (cellRun s more) (.arrive c)).delivered =
        (c, .ok conn) :: (cellRun s more).delivered ∧
      (cellStep (cellRun s more) (.arrive c)).started =
        (cellRun s more).started) := by
  refine ⟨fun h => ?_, fun h hw => ?_, fun h => ?_⟩
  · simp [cellStep, h]
  · simp only [cellStep, h, List.mem_append]
    exact Or.inl (List.mem_map.mpr ⟨w, hw, rfl⟩)
  · have hst := cellRun_ready_stable more s h
    exact ⟨hst, by simp [cellStep, hst], by simp [cellStep, hst]⟩

/-- C10: a failed establishment attempt is not cached.  When the in-flight
attempt resolves with an I/O error, the cell returns to `unset`; each waiter
is delivered that error, which `send` surfaces as `IoError` (the `?` on
`get_connection`); and the next caller to arrive starts a fresh
establishment attempt from scratch. -/
theorem establishment_failure_not_cached (s : CellTrace) (ws : List Nat)
    (e : IoErr) (w c : Nat) (enq : EnqueueOutcome) (res : RecvOutcome)
    (hph : s.phase = .initializing ws) :
    (cellStep s (.resolve (.error e))).phase = .unset ∧
    (w ∈ ws → (w, .error e) ∈ (cellStep s (.resolve (.error e))).delivered) ∧
    send (.error e) enq res = .error (.ioError e) ∧
    (cellStep (cellStep s (.resolve (.error e))) (.arrive c)).phase =
      .initializing [c] ∧
    (cellStep (cellStep s (.resolve (.error e))) (.arrive c)).started =
      s.started + 1 := by
  refine ⟨by simp [cellStep, hph], fun hw => ?_, rfl, ?_, ?_⟩
  · simp only [cellStep, hph, List.mem_append]
    exact Or.inl (List.mem_map.mpr ⟨w, hw, rfl⟩)
  · simp [cellStep, hph]
  · simp [cellStep, hph]

/-! ## Witnesses -/

theorem reader_correlates_responses_witness :
    NodupKeys [(1, 10), (2, 20)] ∧ NodupHandles [(1, 10), (2, 20)] ∧
    lookup [(1, 10), (2, 20)] 1 = some 10 ∧
    deliveredTo (readerRun [(1, 10), (2, 20)]
        [.resp ⟨2, .payload 5⟩, .malformed "x", .resp ⟨1, .err "boom"⟩]).2
        10 =
      ((firstResponse
          [.resp ⟨2, .payload 5⟩, .malformed "x", .resp ⟨1, .err "boom"⟩]
          1).map outcomeOf).toList :=
  ⟨by decide, by decide, by decide,
    reader_correlates_responses
      [.resp ⟨2, .payload 5⟩, .malformed "x", .resp ⟨1, .err "boom"⟩]
      [(1, 10), (2, 20)] 1 10 (by decide) (by decide) (by decide)⟩

theorem writer_ids_unique_witness :
    NodupKeys [(4294967295, 1)] ∧
    (NodupKeys (writerRun ⟨[(4294967295, 1)], 4294967295⟩
        [((9, 2), .ok)]).state.table ∧
      (allocId [(4294967295, 1)] 4294967295 U32 = some 0 →
        containsKey [(4294967295, 1)] 0 = false)) :=
  ⟨by decide,
    writer_ids_unique ⟨[(4294967295, 1)], 4294967295⟩ [((9, 2), .ok)] 0
      (by decide)⟩

theorem write_failure_halts_writer_witness :
    (∀ x ∈ [((1, 10), WriteOutcome.ok)], x.2 = WriteOutcome.ok) ∧
    ((writerRun ⟨[], 0⟩ ([((1, 10), .ok)] ++
        ((2, 11), .fail "boom") :: [((3, 12), .ok)])).completions =
      [(11, .error (.ioError "boom"))] ∧
    (writerRun ⟨[], 0⟩ ([((1, 10), .ok)] ++
        ((2, 11), .fail "boom") :: [((3, 12), .ok)])).alive = false ∧
    (writerRun ⟨[], 0⟩ ([((1, 10), .ok)] ++
        ((2, 11), .fail "boom") :: [((3, 12), .ok)])).written =
      (writerRun ⟨[], 0⟩ [((1, 10), .ok)]).written) :=
  ⟨by decide,
    write_failure_halts_writer ⟨[], 0⟩ [((1, 10), .ok)] 2 11 "boom"
      [((3, 12), .ok)] (by decide) (by decide) (by decide) (by decide)⟩

theorem table_lifecycle_amended_witness :
    allocId [(5, 77)] 0 U32 = some 0 ∧ lookup [(5, 77)] 5 = some 77 ∧
    ((writerRun ⟨[(5, 77)], 0⟩ [((1, 3), .ok)]).state.table =
        insertEntry [(5, 77)] 0 3 ∧
      (readerStep [(5, 77)] (.resp ⟨5, .payload 9⟩)).1 =
        removeKey [(5, 77)] 5 ∧
      (writerRun ⟨[(5, 77)], 0⟩ [((1, 3), .fail "boom")]).state.table =
        [(5, 77)] ∧
      (writerRun ⟨[(5, 77)], 0⟩ [((1, 3), .fail "boom")]).completions =
        [(3, .error (.ioError "boom"))]) :=
  ⟨by decide, by decide,
    table_lifecycle_amended ⟨[(5, 77)], 0⟩ 1 3 "boom" [] [(5, 77)] 5 77
      (.payload 9) 0 (by decide) (by decide)⟩

theorem error_payload_mapping_witness :
    lookup [(7, 3)] 7 = some 3 ∧
    ((readerStep [(7, 3)] (.resp ⟨7, .err "boom"⟩)).2 =
        some (3, outcomeOf (.err "boom")) ∧
      (∀ m, ResponseBody.err "boom" = .err m →
        send (.ok ()) .ok (.resolved (outcomeOf (.err "boom"))) =
          .error (.responseError m)) ∧
      ((∀ m, ResponseBody.err "boom" ≠ .err m) →
        send (.ok ()) .ok (.resolved (outcomeOf (.err "boom"))) =
          .ok (.err "boom"))) :=
  ⟨by decide, error_payload_mapping [(7, 3)] 7 3 (.err "boom") (by decide)⟩

theorem connection_single_flight_witness :
    ((cellStep ⟨.initializing [7], [], 1⟩ (.arrive 3)).phase =
        .initializing [3, 7] ∧
      (cellStep ⟨.initializing [7], [], 1⟩ (.arrive 3)).started = 1) ∧
    (7, Except.ok 42) ∈
      (cellStep ⟨.initializing [7], [], 1⟩ (.resolve (.ok 42))).delivered ∧
    ((cellRun ⟨.ready 42, [], 1⟩ [.arrive 8, .resolve (.error "x")]).phase =
        .ready 42 ∧
      (cellStep (cellRun ⟨.ready 42, [], 1⟩
            [.arrive 8, .resolve (.error "x")]) (.arrive 9)).delivered =
        (9, .ok 42) ::
          (cellRun ⟨.ready 42, [], 1⟩
            [.arrive 8, .resolve (.error "x")]).delivered ∧
      (cellStep (cellRun ⟨.ready 42, [], 1⟩
            [.arrive 8, .resolve (.error "x")]) (.arrive 9)).started =
        (cellRun ⟨.ready 42, [], 1⟩
          [.arrive 8, .resolve (.error "x")]).started) :=
  ⟨(connection_single_flight ⟨.initializing [7], [], 1⟩ 3 7 0 [7]
      (.ok 42) []).1 rfl,
    (connection_single_flight ⟨.initializing [7], [], 1⟩ 3 7 0 [7]
      (.ok 42) []).2.1 rfl (by decide),
    (connection_single_flight ⟨.ready 42, [], 1⟩ 9 0 42 []
      (.ok 0) [.arrive 8, .resolve (.error "x")]).2.2 rfl⟩

theorem unmatched_response_skipped_witness :
    lookup [(1, 5)] 99 = none ∧ lookup [(1, 5)] 1 = some 5 ∧
    (readerStep [(1, 5)] (.resp ⟨99, .payload 0⟩) = ([(1, 5)], none) ∧
      readerRun [(1, 5)] (.resp ⟨99, .payload 0⟩ ::
          [.resp ⟨1, .payload 4⟩]) =
        readerRun [(1, 5)] [.resp ⟨1, .payload 4⟩] ∧
      deliveredTo (readerRun [(1, 5)] (.resp ⟨99, .payload 0⟩ ::
          [.resp ⟨1, .payload 4⟩])).2 5 =
        deliveredTo (readerRun [(1, 5)] [.resp ⟨1, .payload 4⟩]).2 5) :=
  ⟨by decide, by decide,
    unmatched_response_skipped [(1, 5)] 99 (.payload 0)
      [.resp ⟨1, .payload 4⟩] 1 5 (by decide) (by decide)⟩

theorem channel_closed_paths_witness :
    (EnqueueOutcome.closed = EnqueueOutcome.closed →
      send (.ok ()) .closed .dropped = .error .channelClosed) ∧
    (RecvOutcome.dropped = RecvOutcome.dropped →
      send (.ok ()) .ok .dropped = .error .channelClosed) :=
  channel_closed_paths .closed .dropped

theorem establishment_failure_not_cached_witness :
    (⟨.initializing [4], [], 2⟩ : CellTrace).phase = .initializing [4] ∧
    ((cellStep ⟨.initializing [4], [], 2⟩ (.resolve (.error "refused"))).phase
        = .unset ∧
      (4 ∈ [4] → ((4 : Nat), Except.error "refused") ∈
        (cellStep ⟨.initializing [4], [], 2⟩
          (.resolve (.error "refused"))).delivered) ∧
      send (.error "refused") .ok .dropped = .error (.ioError "refused") ∧
      (cellStep (cellStep ⟨.initializing [4], [], 2⟩
          (.resolve (.error "refused"))) (.arrive 6)).phase =
        .initializing [6] ∧
      (cellStep (cellStep ⟨.initializing [4], [], 2⟩
          (.resolve (.error "refused"))) (.arrive 6)).started = 2 + 1) :=
  ⟨rfl,
    establishment_failure_not_cached ⟨.initializing [4], [], 2⟩ [4]
      "refused" 4 6 .ok .dropped rfl⟩

end Devcaders
